import Mathlib

/-! Verification development for `api/cloudcontroller/ccv2/buildpack.go`.

Shallow embedding of the buildpack client: the `Buildpack` JSON (un)marshalling,
the multipart encoder goroutine, the transmitter goroutine and the coordinator
`select` loop of `uploadBuildpackAsynchronously`.
-/

namespace Ccv2

/-! ## Go values -/

/-- Go `error` interface value: `none` is `nil`, `some msg` is a non-nil error. -/
abbrev GoError := Option String

/-! ## The coordinator loop of `uploadBuildpackAsynchronously` (lines 160-188) -/

/-- Result of one channel receive `v, ok := <-ch`: a delivered value (`ok = true`)
or the observation that the channel is closed (`ok = false`). -/
inductive Recv where
  | value (err : GoError)
  | closed
  deriving DecidableEq, Repr

/-- One outcome of the `select` statement: which case fired and what it received. -/
inductive Event where
  | writeErrors (r : Recv)
  | httpErrors (r : Recv)
  deriving DecidableEq, Repr

/-- Local variables of the loop: `firstError`, `writeClosed`, `httpClosed`. -/
structure CoordState where
  firstError : GoError
  writeClosed : Bool
  httpClosed : Bool
  deriving DecidableEq, Repr

/-- Values of the `var` declarations at lines 160-161. -/
def CoordState.init : CoordState :=
  { firstError := none, writeClosed := false, httpClosed := false }

/-- Body of the `select` statement for one outcome (lines 164-183). -/
def selectCase (s : CoordState) : Event → CoordState
  | .writeErrors .closed => { s with writeClosed := true }
  | .writeErrors (.value writeErr) =>
      if s.firstError = none then { s with firstError := writeErr } else s
  | .httpErrors .closed => { s with httpClosed := true }
  | .httpErrors (.value httpErr) =>
      if s.firstError = none then { s with firstError := httpErr } else s

/-- The `for` loop (lines 163-188) run over the sequence of `select` outcomes that
arrive.  Each iteration performs one `select` and then tests
`writeClosed && httpClosed`.  The result is the state at the `break` together with
the outcomes that were never consumed; `none` means the loop is still blocked in
`select` when the outcomes are used up. -/
def coordinatorLoop : CoordState → List Event → Option (CoordState × List Event)
  | _, [] => none
  | s, ev :: rest =>
      let s' := selectCase s ev
      if s'.writeClosed && s'.httpClosed then some (s', rest)
      else coordinatorLoop s' rest

/-- Error values delivered by the two channels, in arrival order. -/
def arrivedErrors : List Event → List GoError
  | [] => []
  | .writeErrors (.value e) :: rest => e :: arrivedErrors rest
  | .httpErrors (.value e) :: rest => e :: arrivedErrors rest
  | _ :: rest => arrivedErrors rest

/-- The first error value in arrival order, `nil` when none arrived. -/
def firstArrived (evs : List Event) : GoError :=
  (arrivedErrors evs).head?.join

/-- What the coordinator sees of `writeErrors`, in order. -/
def writeSide : List Event → List Recv
  | [] => []
  | .writeErrors r :: rest => r :: writeSide rest
  | _ :: rest => writeSide rest

/-- What the coordinator sees of `httpErrors`, in order. -/
def httpSide : List Event → List Recv
  | [] => []
  | .httpErrors r :: rest => r :: httpSide rest
  | _ :: rest => httpSide rest

/-- Only closure observations. -/
def allClosed : List Recv → Bool
  | [] => true
  | .closed :: rest => allClosed rest
  | .value _ :: _ => false

/-- Protocol of one completion channel: at most one non-nil error value, then
closure.  A closed Go channel stays ready, so closure may be observed again on
later `select` rounds. -/
def chanProtocol : List Recv → Bool
  | .value (some _) :: .closed :: rest => allClosed rest
  | .closed :: rest => allClosed rest
  | _ => false

/-- An interleaving of the two channels' events, each channel following the
protocol. -/
def Interleaving (evs : List Event) : Prop :=
  chanProtocol (writeSide evs) = true ∧ chanProtocol (httpSide evs) = true

instance (evs : List Event) : Decidable (Interleaving evs) := by
  unfold Interleaving; infer_instance

/-- Closure of `writeErrors` has been observed among the events. -/
def writeClosureSeen (evs : List Event) : Bool :=
  evs.contains (.writeErrors .closed)

/-- Closure of `httpErrors` has been observed among the events. -/
def httpClosureSeen (evs : List Event) : Bool :=
  evs.contains (.httpErrors .closed)

/-- Closure has been observed on both completion channels. -/
def bothClosuresSeen (evs : List Event) : Bool :=
  writeClosureSeen evs && httpClosureSeen evs

/-- Any number of non-nil values followed by closure, observed one or more times. -/
def valuesThenClosed : List Recv → Bool
  | .value (some _) :: rest => valuesThenClosed rest
  | .closed :: rest => allClosed rest
  | _ => false

/-- Channel protocol as seen from the middle of a run: a channel whose closure has
been observed delivers only closure; one that is still open delivers non-nil
values and then closure. -/
def sideOk (closedFlag : Bool) (rs : List Recv) : Bool :=
  if closedFlag then allClosed rs else valuesThenClosed rs

/-- Value kept by the loop when it already holds `cur` and `next` arrives. -/
def keepFirst (cur next : GoError) : GoError :=
  match cur with
  | some e => some e
  | none => next

/-! ## `Buildpack` and its JSON forms (lines 16-51)

JSON documents are represented by their syntax tree; printing and parsing of the
text are the work of `encoding/json`. -/

/-- A JSON number literal: an integer literal, or one with a fraction or exponent. -/
inductive NumLit where
  | int (n : Int)
  | real (text : String)
  deriving DecidableEq, Repr

/-- JSON syntax tree; an object keeps its members in document order. -/
inductive Json where
  | null
  | bool (b : Bool)
  | num (n : NumLit)
  | str (s : String)
  | arr (items : List Json)
  | obj (members : List (String × Json))

/-- The `Buildpack` struct (lines 16-21); `Position` is a Go `int`. -/
structure Buildpack where
  Enabled : Bool
  GUID : String
  Name : String
  Position : Int
  deriving DecidableEq, Repr

/-- The zero value `Buildpack{}`. -/
def Buildpack.zero : Buildpack :=
  { Enabled := false, GUID := "", Name := "", Position := 0 }

deriving instance DecidableEq for Except

/-- Range of a 64-bit Go `int`. -/
def inIntRange (n : Int) : Bool :=
  decide (-(2 : Int) ^ 63 ≤ n) && decide (n < (2 : Int) ^ 63)

/-- The call `json.Marshal(buildpack)` of `CreateBuildpack` (line 48): the struct
fields in declaration order under the tags of lines 17-20; a field tagged
`omitempty` is left out when it holds its zero value. -/
def marshalBuildpack (b : Buildpack) : Json :=
  .obj ((if b.Enabled = false then [] else [("enabled", .bool b.Enabled)])
    ++ (if b.GUID = "" then [] else [("guid", .str b.GUID)])
    ++ [("name", .str b.Name)]
    ++ (if b.Position = 0 then [] else [("position", .num (.int b.Position))]))

/-- Request body handed to `newHTTPRequest` by `CreateBuildpack` (lines 48-56). -/
def createBuildpackBody (b : Buildpack) : Json :=
  marshalBuildpack b

/-- Value of the member named `key`, the first one in document order. -/
def Json.member? : Json → String → Option Json
  | .obj members, key => (members.find? (fun kv => kv.1 == key)).map Prod.snd
  | _, _ => none

/-- Names of the members of an object, in document order. -/
def Json.memberNames : Json → List String
  | .obj members => members.map Prod.fst
  | _ => []

/-- Case folding used by `encoding/json` when it matches an object key against a
field name: ASCII letters fold to lower case, and U+017F and U+212A fold to `s`
and `k`. -/
def foldRune (c : Char) : Char :=
  if c = Char.ofNat 0x17F then 's'
  else if c = Char.ofNat 0x212A then 'k'
  else c.toLower

/-- Does the object key select the struct field tagged `field`? -/
def keyMatches (field key : String) : Bool :=
  key.toList.map foldRune == field.toList.map foldRune

/-- Decode a JSON value into a Go `string` holding `cur`. -/
def decodeString (cur : String) : Json → Except String String
  | .str s => .ok s
  | .null => .ok cur
  | _ => .error "json: cannot unmarshal into Go value of type string"

/-- Decode a JSON value into a Go `int` holding `cur`. -/
def decodeInt (cur : Int) : Json → Except String Int
  | .num (.int n) =>
      if inIntRange n then .ok n
      else .error "json: cannot unmarshal number into Go value of type int"
  | .null => .ok cur
  | _ => .error "json: cannot unmarshal into Go value of type int"

/-- Decode a JSON value into a Go `bool` holding `cur`. -/
def decodeBool (cur : Bool) : Json → Except String Bool
  | .bool b => .ok b
  | .null => .ok cur
  | _ => .error "json: cannot unmarshal into Go value of type bool"

/-- The anonymous struct `Metadata` of `alias` (lines 25-27). -/
structure AliasMetadata where
  GUID : String
  deriving DecidableEq, Repr

/-- The anonymous struct `Entity` of `alias` (lines 28-32). -/
structure AliasEntity where
  Name : String
  Position : Int
  Enabled : Bool
  deriving DecidableEq, Repr

/-- The local variable `alias` of `UnmarshalJSON` (lines 24-33). -/
structure Alias where
  Metadata : AliasMetadata
  Entity : AliasEntity
  deriving DecidableEq, Repr

/-- Zero value of `alias`. -/
def Alias.zero : Alias :=
  { Metadata := { GUID := "" }, Entity := { Name := "", Position := 0, Enabled := false } }

/-- Decode the members of an object into the `Metadata` struct, in document order. -/
def decodeMetadata (cur : AliasMetadata) : List (String × Json) → Except String AliasMetadata
  | [] => .ok cur
  | (k, v) :: rest =>
      if keyMatches "guid" k then
        match decodeString cur.GUID v with
        | .ok g => decodeMetadata { cur with GUID := g } rest
        | .error e => .error e
      else decodeMetadata cur rest

/-- Decode the members of an object into the `Entity` struct, in document order. -/
def decodeEntity (cur : AliasEntity) : List (String × Json) → Except String AliasEntity
  | [] => .ok cur
  | (k, v) :: rest =>
      if keyMatches "name" k then
        match decodeString cur.Name v with
        | .ok n => decodeEntity { cur with Name := n } rest
        | .error e => .error e
      else if keyMatches "position" k then
        match decodeInt cur.Position v with
        | .ok n => decodeEntity { cur with Position := n } rest
        | .error e => .error e
      else if keyMatches "enabled" k then
        match decodeBool cur.Enabled v with
        | .ok b => decodeEntity { cur with Enabled := b } rest
        | .error e => .error e
      else decodeEntity cur rest

/-- Decode the members of the top-level object into `alias`, in document order. -/
def decodeAlias (cur : Alias) : List (String × Json) → Except String Alias
  | [] => .ok cur
  | (k, v) :: rest =>
      if keyMatches "metadata" k then
        match v with
        | .obj ms =>
            match decodeMetadata cur.Metadata ms with
            | .ok m => decodeAlias { cur with Metadata := m } rest
            | .error e => .error e
        | .null => decodeAlias cur rest
        | _ => .error "json: cannot unmarshal into Go struct field .metadata"
      else if keyMatches "entity" k then
        match v with
        | .obj ms =>
            match decodeEntity cur.Entity ms with
            | .ok en => decodeAlias { cur with Entity := en } rest
            | .error e => .error e
        | .null => decodeAlias cur rest
        | _ => .error "json: cannot unmarshal into Go struct field .entity"
      else decodeAlias cur rest

/-- The call `json.Unmarshal(data, &alias)` at line 34, `alias` being zero. -/
def unmarshalAlias : Json → Except String Alias
  | .obj members => decodeAlias Alias.zero members
  | .null => .ok Alias.zero
  | _ => .error "json: cannot unmarshal into Go value of type struct"

/-- The method `Buildpack.UnmarshalJSON` (lines 23-45): the buildpack it leaves behind when it
returns nil, or the error it returns. -/
def Buildpack.UnmarshalJSON (data : Json) : Except String Buildpack :=
  match unmarshalAlias data with
  | .error err => .error err
  | .ok al =>
      .ok { Enabled := al.Entity.Enabled
            GUID := al.Metadata.GUID
            Name := al.Entity.Name
            Position := al.Entity.Position }

/-- The nested metadata/entity envelope carrying the fields of `b`, the form of the
Cloud Controller's responses. -/
def envelope (b : Buildpack) : Json :=
  .obj [("metadata", .obj [("guid", .str b.GUID)]),
        ("entity", .obj [("name", .str b.Name), ("position", .num (.int b.Position)),
                         ("enabled", .bool b.Enabled)])]

/-! ## `filepath.Base` (line 113)

The standard library's `path/filepath.Base` on a Unix `GOOS`: the only separator
is the slash and `VolumeName` is always empty. -/

/-- The predicate `os.IsPathSeparator` on Unix. -/
def isPathSeparator (c : Char) : Bool :=
  c == '/'

/-- The loop `for len(path) > 0 && os.IsPathSeparator(path[len(path)-1])` that strips
trailing separators. -/
def stripTrailingSeparators (path : List Char) : List Char :=
  (path.reverse.dropWhile isPathSeparator).reverse

/-- The scan back from the end to the last separator: what follows it, or the whole
path when there is none. -/
def lastElement (path : List Char) : List Char :=
  (path.reverse.takeWhile (fun c => !isPathSeparator c)).reverse

/-- The function `filepath.Base(path)`. -/
def Base (path : String) : String :=
  if path.toList = [] then "."
  else
    let elem := lastElement (stripTrailingSeparators path.toList)
    if elem = [] then "/" else String.mk elem

/-! ## The two goroutines (lines 109-132 and 146-153) -/

/-- The two completion channels. -/
inductive Chan where
  | writeErrors
  | httpErrors
  deriving DecidableEq, Repr

/-- What one call writes into the pipe: the part header written by
`form.CreateFormFile`, a chunk of the source written by `io.Copy`, or the closing
boundary written by `form.Close`. -/
inductive Part where
  | header (fieldname filename : String)
  | content (bytes : String)
  | closing
  deriving DecidableEq, Repr

/-- The type `Warnings` is a list of strings. -/
abbrev Warnings := List String

/-- One call or channel operation of a goroutine, with the outcome of the call.
* `createFormFile f n err`: `form.CreateFormFile(f, n)` returning `err`;
* `copy chunks err`: `io.Copy(writer, buildpack)` that moves `chunks` into the part
  and returns `err`;
* `formClose err`: `form.Close()` returning `err`;
* `send ch err`: `ch <- err`;
* `closePipe`: `writerInput.Close()`;
* `close ch`: `close(ch)`;
* `make warnings err`: `client.connection.Make(request, &response)` that fills
  `response.Warnings` with `warnings` and returns `err`. -/
inductive Act where
  | createFormFile (fieldname filename : String) (err : GoError)
  | copy (chunks : List String) (err : GoError)
  | formClose (err : GoError)
  | send (ch : Chan) (err : GoError)
  | closePipe
  | close (ch : Chan)
  | make (warnings : Warnings) (err : GoError)
  deriving DecidableEq, Repr

/-- Outcomes of the three fallible calls of the encoder goroutine. -/
structure EncoderRun where
  createErr : GoError
  copied : List String
  copyErr : GoError
  closeErr : GoError
  deriving DecidableEq, Repr

/-- Deferred calls run when the function returns, last deferred first. -/
def deferred (registered : List Act) : List Act :=
  registered.reverse

/-- The statements of the encoder goroutine between the `defer`s and its return
(lines 113-131), in execution order. -/
def encoderBody (bpPath : String) (r : EncoderRun) : List Act :=
  let bpFileName := Base bpPath
  .createFormFile "buildpack" bpFileName r.createErr ::
    (if r.createErr ≠ none then [.send .writeErrors r.createErr]
     else
      .copy r.copied r.copyErr ::
        (if r.copyErr ≠ none then [.send .writeErrors r.copyErr]
         else
          .formClose r.closeErr ::
            (if r.closeErr ≠ none then [.send .writeErrors r.closeErr] else [])))

/-- The encoder goroutine of `createMultipartBodyAndHeaderForBuildpack`
(lines 109-132): its body, then the calls deferred at lines 110 and 111. -/
def encoderTask (bpPath : String) (r : EncoderRun) : List Act :=
  encoderBody bpPath r ++ deferred [.close .writeErrors, .closePipe]

/-- The transmitter goroutine of `uploadBuildpackAsynchronously` (lines 146-153). -/
def transmitterTask (warnings : Warnings) (makeErr : GoError) : List Act :=
  (.make warnings makeErr ::
    (if makeErr ≠ none then [.send .httpErrors makeErr] else []))
  ++ deferred [.close .httpErrors]

/-- Field name and file name of the form-file part a goroutine creates. -/
def formFile? : List Act → Option (String × String)
  | [] => none
  | .createFormFile f n _ :: _ => some (f, n)
  | _ :: rest => formFile? rest

/-- Values a goroutine sends on `ch`, in order. -/
def sentOn (ch : Chan) : List Act → List GoError
  | [] => []
  | .send c e :: rest => if c = ch then e :: sentOn ch rest else sentOn ch rest
  | _ :: rest => sentOn ch rest

/-! ## `UploadBuildpack` as a system of goroutines (lines 70-100 and 137-192) -/

/-- The write the goroutine's current call is offering to the pipe, with the
goroutine as it continues once the write has been taken: the part header of a
`CreateFormFile` that succeeds, the next chunk of `io.Copy`, or the closing
boundary of a `form.Close` that succeeds. -/
def pendingWrite : List Act → Option (Part × List Act)
  | .createFormFile f n none :: rest => some (.header f n, rest)
  | .copy (c :: cs) err :: rest => some (.content c, .copy cs err :: rest)
  | .formClose none :: rest => some (.closing, rest)
  | _ => none

/-- Outcome of a `Read` on the read side of the pipe. -/
inductive ReadResult where
  | part (p : Part) (writer : List Act)
  | eof
  | blocked
  deriving DecidableEq, Repr

/-- Modelled from the spec: the pipe made by `cloudcontroller.NewPipeBomb`, which is
not part of the source.  It is the synchronous, unbuffered handoff of section 4.1:
a read takes the write that the writer is blocked in, a read with no write pending
observes end-of-stream once the write side is closed, and suspends otherwise. -/
def pipeRead (writer : List Act) (writeSideClosed : Bool) : ReadResult :=
  match pendingWrite writer with
  | some (p, writer') => .part p writer'
  | none => if writeSideClosed then .eof else .blocked

/-- Modelled from the spec: `client.connection.Make`, which is not part of the
source.  While it runs it reads the request body, which is the read side of the
pipe (section 4.3); this is one such read: the part it takes from the pipe with the
encoder as it continues, or `none` when there is nothing to take.  The call may
return at any point, filling in `response.Warnings` and giving its error. -/
def connectionMakeRead (encoder : List Act) (writeSideClosed : Bool) :
    Option (Part × List Act) :=
  match pipeRead encoder writeSideClosed with
  | .part p enc => some (p, enc)
  | _ => none

/-- A receive `v, ok := <-ch` on an unbuffered channel whose only sender is the
goroutine `sender`: it completes with the value of a send the sender is blocked
in, or with `ok = false` when the channel is closed, and suspends otherwise. -/
def recv (ch : Chan) (sender : List Act) (closed : Bool) : Option (Recv × List Act) :=
  match sender with
  | .send c e :: rest =>
      if c = ch then some (.value e, rest)
      else if closed then some (.closed, sender) else none
  | _ => if closed then some (.closed, sender) else none

/-- Where the goroutine that runs `UploadBuildpack` stands. -/
inductive MainPc where
  /-- In `buf.ReadFrom(body)`, line 75. -/
  | draining
  /-- At `client.newHTTPRequest`, lines 81-85. -/
  | building
  /-- In the `select` loop of `uploadBuildpackAsynchronously`, lines 163-188. -/
  | coordinating (s : CoordState)
  /-- Returned from `UploadBuildpack` with these values. -/
  | returned (warnings : Warnings) (err : GoError)
  deriving DecidableEq, Repr

/-- State of one call of `UploadBuildpack`. -/
structure Upload where
  main : MainPc
  /-- What the encoder goroutine still has to do. -/
  encoder : List Act
  /-- What the transmitter goroutine still has to do; empty until it is started. -/
  transmitter : List Act
  /-- Whether `writerInput.Close()` has run. -/
  pipeClosed : Bool
  writeErrorsClosed : Bool
  httpErrorsClosed : Bool
  /-- Contents of `buf` (line 74). -/
  buf : List Part
  /-- What `connection.Make` has read from the request body. -/
  sent : List Part
  /-- The field `response.Warnings` once `connection.Make` has filled it in. -/
  response : Option Warnings
  deriving DecidableEq, Repr

/-- What the environment decides in one call of `UploadBuildpack`: the path, the
outcomes of the encoder's calls, the error of `client.newHTTPRequest`, and the
warnings and error of `client.connection.Make`. -/
structure Env where
  bpPath : String
  encoderRun : EncoderRun
  requestErr : GoError
  makeWarnings : Warnings
  makeErr : GoError
  deriving DecidableEq, Repr

/-- State when `createMultipartBodyAndHeaderForBuildpack` has returned (line 72):
the pipe and `writeErrors` exist and the encoder goroutine has been started. -/
def Upload.init (env : Env) : Upload :=
  { main := .draining
    encoder := encoderTask env.bpPath env.encoderRun
    transmitter := []
    pipeClosed := false
    writeErrorsClosed := false
    httpErrorsClosed := false
    buf := []
    sent := []
    response := none }

/-- Lines 94-98 of `UploadBuildpack`: both branches return the warnings it got. -/
def uploadResult (warnings : Warnings) (err : GoError) : MainPc :=
  if err ≠ none then .returned warnings err else .returned warnings none

/-- Lines 185-191: after a `select`, either leave the loop and return
`response.Warnings` and `firstError`, or go round again. -/
def afterSelect (response : Option Warnings) (cs : CoordState) : MainPc :=
  if cs.writeClosed && cs.httpClosed then uploadResult (response.getD []) cs.firstError
  else .coordinating cs

/-- The moves of the system. -/
inductive Step where
  /-- The goroutine of `UploadBuildpack` outside the `select` loop: one read of `buf.ReadFrom`, or
  the call of `newHTTPRequest` and the start of the transmitter. -/
  | main
  /-- The `select` takes its `writeErrors` case. -/
  | selectWrite
  /-- The `select` takes its `httpErrors` case. -/
  | selectHttp
  /-- The encoder goroutine does something that needs no partner. -/
  | encoder
  /-- A read of `connection.Make` from the request body. -/
  | bodyRead
  /-- The transmitter goroutine does something that needs no partner:
  `connection.Make` returns, or the deferred `close(httpErrors)` runs. -/
  | transmitter
  deriving DecidableEq, Repr

/-- One move; `none` when the move is not possible in the state (the goroutine is
suspended, has finished or is elsewhere). -/
def step (env : Env) : Step → Upload → Option Upload
  | .main, s =>
      match s.main with
      | .draining =>
          match pipeRead s.encoder s.pipeClosed with
          | .part p enc => some { s with buf := s.buf ++ [p], encoder := enc }
          | .eof => some { s with main := .building }
          | .blocked => none
      | .building =>
          match env.requestErr with
          | some err => some { s with main := .returned [] (some err) }
          | none =>
              some { s with main := .coordinating CoordState.init
                            transmitter := transmitterTask env.makeWarnings env.makeErr }
      | _ => none
  | .selectWrite, s =>
      match s.main with
      | .coordinating cs =>
          match recv .writeErrors s.encoder s.writeErrorsClosed with
          | some (r, enc) =>
              some { s with encoder := enc
                            main := afterSelect s.response (selectCase cs (.writeErrors r)) }
          | none => none
      | _ => none
  | .selectHttp, s =>
      match s.main with
      | .coordinating cs =>
          match recv .httpErrors s.transmitter s.httpErrorsClosed with
          | some (r, tx) =>
              some { s with transmitter := tx
                            main := afterSelect s.response (selectCase cs (.httpErrors r)) }
          | none => none
      | _ => none
  | .encoder, s =>
      match s.encoder with
      | .createFormFile _ _ (some _) :: rest => some { s with encoder := rest }
      | .copy [] _ :: rest => some { s with encoder := rest }
      | .formClose (some _) :: rest => some { s with encoder := rest }
      | .closePipe :: rest => some { s with encoder := rest, pipeClosed := true }
      | .close .writeErrors :: rest => some { s with encoder := rest, writeErrorsClosed := true }
      | _ => none
  | .bodyRead, s =>
      match s.transmitter with
      | .make _ _ :: _ =>
          match connectionMakeRead s.encoder s.pipeClosed with
          | some (p, enc) => some { s with sent := s.sent ++ [p], encoder := enc }
          | none => none
      | _ => none
  | .transmitter, s =>
      match s.transmitter with
      | .make w _ :: rest => some { s with transmitter := rest, response := some w }
      | .close .httpErrors :: rest => some { s with transmitter := rest, httpErrorsClosed := true }
      | _ => none

/-- Run a schedule; `none` when one of its moves is not possible. -/
def run (env : Env) : List Step → Upload → Option Upload
  | [], s => some s
  | l :: rest, s =>
      match step env l s with
      | some s' => run env rest s'
      | none => none

/-- The moves possible in a state. -/
def enabled (env : Env) (s : Upload) : List Step :=
  [Step.main, .selectWrite, .selectHttp, .encoder, .bodyRead, .transmitter].filter
    (fun l => (step env l s).isSome)

/-- Whether `UploadBuildpack` has returned. -/
def Upload.hasReturned (s : Upload) : Bool :=
  match s.main with
  | .returned _ _ => true
  | _ => false

/-- No move is possible and `UploadBuildpack` has not returned. -/
def deadlocked (env : Env) (s : Upload) : Bool :=
  (enabled env s).isEmpty && !s.hasReturned

/-- Everything a goroutine writes into the pipe when it runs to its end. -/
def writtenParts : List Act → List Part
  | [] => []
  | .createFormFile f n none :: rest => .header f n :: writtenParts rest
  | .copy chunks _ :: rest => chunks.map .content ++ writtenParts rest
  | .formClose none :: rest => .closing :: writtenParts rest
  | _ :: rest => writtenParts rest

/-- The goroutine's remaining calls lead to a send before any close: however the
calls ahead of the send go, the goroutine then waits for a receiver. -/
def blockedBySend : List Act → Bool
  | .send _ _ :: _ => true
  | .createFormFile _ _ _ :: rest => blockedBySend rest
  | .copy _ _ :: rest => blockedBySend rest
  | .formClose _ :: rest => blockedBySend rest
  | _ => false

/-- While the drain of line 75 waits and the encoder is heading for a send, this
holds of the state. -/
def HangInv (s : Upload) : Prop :=
  s.main = .draining ∧ s.pipeClosed = false ∧ s.transmitter = [] ∧
    blockedBySend s.encoder = true

/-- An upload of the three bytes "abc" from "/a/b/c/pkg.zip" in which every call
succeeds and the response carries one warning. -/
def uploadOk : Env :=
  { bpPath := "/a/b/c/pkg.zip"
    encoderRun := { createErr := none, copied := ["abc"], copyErr := none, closeErr := none }
    requestErr := none
    makeWarnings := ["this is a warning"]
    makeErr := none }

/-- The same upload when the source fails after the three bytes "abc". -/
def uploadSourceFails : Env :=
  { bpPath := "/a/b/c/pkg.zip"
    encoderRun := { createErr := none, copied := ["abc"], copyErr := some "read failed",
                    closeErr := none }
    requestErr := none
    makeWarnings := ["this is a warning"]
    makeErr := none }

/-- The same upload when the server answers with an error and a warning, as in the
test "when the upload returns an error". -/
def uploadNotFound : Env :=
  { bpPath := "/a/b/c/pkg.zip"
    encoderRun := { createErr := none, copied := ["abc"], copyErr := none, closeErr := none }
    requestErr := none
    makeWarnings := ["this is a warning"]
    makeErr := some "The buildpack could not be found: some-buildpack-guid" }

/-- After a `writerInput.Close()` the goroutine writes nothing more into the pipe. -/
def quietAfterClose : List Act → Bool
  | [] => true
  | .closePipe :: rest => (writtenParts rest).isEmpty && quietAfterClose rest
  | _ :: rest => quietAfterClose rest

/-- What holds of every state of an upload: nothing has been read through the
request body, `buf` and the writes still to come make up everything the encoder
writes, and `UploadBuildpack` is past line 75 only when the pipe is closed and
drained. -/
def DrainInv (env : Env) (s : Upload) : Prop :=
  s.sent = [] ∧
  s.buf ++ writtenParts s.encoder = writtenParts (encoderTask env.bpPath env.encoderRun) ∧
  (s.pipeClosed = true → writtenParts s.encoder = []) ∧
  (s.main ≠ .draining → s.pipeClosed = true) ∧
  (s.main = .draining → s.transmitter = []) ∧
  quietAfterClose s.encoder = true

/-- A schedule of the successful upload that runs it to its return. -/
def uploadOkSchedule : List Step :=
  [.main, .main, .encoder, .main, .encoder, .main, .main, .transmitter, .encoder,
   .selectWrite, .transmitter, .selectHttp]

/-- The state the successful upload ends in on `uploadOkSchedule`. -/
def uploadOkFinal : Upload :=
  { main := .returned ["this is a warning"] none
    encoder := []
    transmitter := []
    pipeClosed := true
    writeErrorsClosed := true
    httpErrorsClosed := true
    buf := [.header "buildpack" "pkg.zip", .content "abc", .closing]
    sent := []
    response := some ["this is a warning"] }

/-- What holds of every state of an upload about the response: `response.Warnings`
is filled in only by `connection.Make`; `httpErrors` is closed only after that and
as the last thing the transmitter does; the coordinator has seen `httpErrors`
closed only if it is closed; and `UploadBuildpack` has returned only with the
transmitter finished or never started. -/
def WarnInv (env : Env) (s : Upload) : Prop :=
  (s.response = none ∨ s.response = some env.makeWarnings) ∧
  (s.httpErrorsClosed = true → s.response = some env.makeWarnings ∧ s.transmitter = []) ∧
  (s.transmitter = [] ∨ s.transmitter = transmitterTask env.makeWarnings env.makeErr ∨
    (s.response = some env.makeWarnings ∧
      (s.transmitter = [.send .httpErrors env.makeErr, .close .httpErrors] ∨
       s.transmitter = [.close .httpErrors]))) ∧
  (∀ cs, s.main = .coordinating cs → cs.httpClosed = true → s.httpErrorsClosed = true) ∧
  (∀ w e, s.main = .returned w e →
    s.transmitter = [] ∧ (s.response = none ∨ w = env.makeWarnings)) ∧
  ((s.main = .draining ∨ s.main = .building) →
    s.transmitter = [] ∧ s.response = none ∧ s.httpErrorsClosed = false)

/-- A schedule that runs an upload whose encoder succeeds to its return: the drain
takes the header, the chunks and the closing boundary, the request is built, and
the coordinator sees both channels through to their closure. -/
def returningSchedule (env : Env) : List Step :=
  .main :: List.replicate env.encoderRun.copied.length .main ++
    ([.encoder, .main, .encoder, .main, .main, .transmitter, .encoder, .selectWrite] ++
      (if env.makeErr = none then [.transmitter, .selectHttp]
       else [.selectHttp, .transmitter, .selectHttp]))

/-- The state the upload answered with an error ends in on its returning schedule. -/
def uploadNotFoundFinal : Upload :=
  { main := .returned ["this is a warning"]
      (some "The buildpack could not be found: some-buildpack-guid")
    encoder := []
    transmitter := []
    pipeClosed := true
    writeErrorsClosed := true
    httpErrorsClosed := true
    buf := [.header "buildpack" "pkg.zip", .content "abc", .closing]
    sent := []
    response := some ["this is a warning"] }

/-! # Theorems -/

/-! ## Coordinator: first error wins -/

theorem arrivedErrors_of_allClosed (evs : List Event)
    (hw : allClosed (writeSide evs) = true) (hh : allClosed (httpSide evs) = true) :
    arrivedErrors evs = [] := by
  induction evs with
  | nil => rfl
  | cons ev rest ih =>
    rcases ev with (_ | _) | (_ | _) <;>
      simp_all [writeSide, httpSide, allClosed, arrivedErrors]

theorem valuesThenClosed_of_chanProtocol (rs : List Recv) (h : chanProtocol rs = true) :
    valuesThenClosed rs = true := by
  match rs, h with
  | .value (some _) :: .closed :: rest, h => simpa [chanProtocol, valuesThenClosed] using h
  | .closed :: rest, h => simpa [chanProtocol, valuesThenClosed] using h

theorem coordinatorLoop_first_error_aux (evs : List Event) :
    ∀ s : CoordState, (s.writeClosed && s.httpClosed) = false →
      sideOk s.writeClosed (writeSide evs) = true →
      sideOk s.httpClosed (httpSide evs) = true →
      ∃ rest, coordinatorLoop s evs =
          some ({ firstError := keepFirst s.firstError (firstArrived evs),
                  writeClosed := true, httpClosed := true }, rest)
        ∧ arrivedErrors rest = [] := by
  induction evs with
  | nil =>
    intro s hs hw hh
    rcases s with ⟨fe, w, h⟩
    cases w <;> cases h <;> simp_all [sideOk, writeSide, httpSide, allClosed, valuesThenClosed]
  | cons ev rest ih =>
    intro s hs hw hh
    rcases s with ⟨fe, w, h⟩
    rcases ev with (e | _) | (e | _)
    · -- a value arrives on writeErrors
      cases w
      · rcases e with _ | e
        · simp [sideOk, writeSide, valuesThenClosed] at hw
        · have hw' : sideOk false (writeSide rest) = true := by
            simpa [sideOk, writeSide, valuesThenClosed] using hw
          have hh' : sideOk h (httpSide rest) = true := by simpa [httpSide] using hh
          cases fe with
          | none =>
            obtain ⟨r, h1, h2⟩ := ih ⟨some e, false, h⟩ (by simp) hw' hh'
            exact ⟨r, by simp [coordinatorLoop, selectCase, h1, keepFirst, firstArrived,
              arrivedErrors], h2⟩
          | some x =>
            obtain ⟨r, h1, h2⟩ := ih ⟨some x, false, h⟩ (by simp) hw' hh'
            exact ⟨r, by simp [coordinatorLoop, selectCase, h1, keepFirst], h2⟩
      · simp [sideOk, writeSide, allClosed] at hw
    · -- closure of writeErrors is observed
      have hw' : allClosed (writeSide rest) = true := by
        cases w <;> simpa [sideOk, writeSide, valuesThenClosed, allClosed] using hw
      cases h
      · have hh' : sideOk false (httpSide rest) = true := by simpa [httpSide] using hh
        obtain ⟨r, h1, h2⟩ := ih ⟨fe, true, false⟩ (by simp) (by simpa [sideOk] using hw') hh'
        exact ⟨r, by simp [coordinatorLoop, selectCase, h1, firstArrived, arrivedErrors], h2⟩
      · have hh' : allClosed (httpSide rest) = true := by simpa [sideOk, httpSide] using hh
        have harr := arrivedErrors_of_allClosed rest hw' hh'
        refine ⟨rest, ?_, harr⟩
        cases fe <;> simp [coordinatorLoop, selectCase, keepFirst, firstArrived, arrivedErrors, harr]
    · -- a value arrives on httpErrors
      cases h
      · rcases e with _ | e
        · simp [sideOk, httpSide, valuesThenClosed] at hh
        · have hh' : sideOk false (httpSide rest) = true := by
            simpa [sideOk, httpSide, valuesThenClosed] using hh
          have hw' : sideOk w (writeSide rest) = true := by simpa [writeSide] using hw
          cases fe with
          | none =>
            obtain ⟨r, h1, h2⟩ := ih ⟨some e, w, false⟩ (by simp) hw' hh'
            exact ⟨r, by simp [coordinatorLoop, selectCase, h1, keepFirst, firstArrived,
              arrivedErrors], h2⟩
          | some x =>
            obtain ⟨r, h1, h2⟩ := ih ⟨some x, w, false⟩ (by simp) hw' hh'
            exact ⟨r, by simp [coordinatorLoop, selectCase, h1, keepFirst], h2⟩
      · simp [sideOk, httpSide, allClosed] at hh
    · -- closure of httpErrors is observed
      have hh' : allClosed (httpSide rest) = true := by
        cases h <;> simpa [sideOk, httpSide, valuesThenClosed, allClosed] using hh
      cases w
      · have hw' : sideOk false (writeSide rest) = true := by simpa [writeSide] using hw
        obtain ⟨r, h1, h2⟩ := ih ⟨fe, false, true⟩ (by simp) hw' (by simpa [sideOk] using hh')
        exact ⟨r, by simp [coordinatorLoop, selectCase, h1, firstArrived, arrivedErrors], h2⟩
      · have hw' : allClosed (writeSide rest) = true := by simpa [sideOk, writeSide] using hw
        have harr := arrivedErrors_of_allClosed rest hw' hh'
        refine ⟨rest, ?_, harr⟩
        cases fe <;> simp [coordinatorLoop, selectCase, keepFirst, firstArrived, arrivedErrors, harr]

/-- C1: for every interleaving of the two completion channels' events (each channel
delivering at most one non-nil error value and then closure) the coordinator loop
returns, the error it returns is the first error value in arrival order, unchanged
(nil when no value arrived), every value has been received by then, and any other
interleaving with the same arrival order of values returns the same error,
whatever the order in which the closures are observed. -/
theorem coordinator_returns_first_error (evs : List Event) (h : Interleaving evs) :
    (∃ rest, coordinatorLoop CoordState.init evs =
        some ({ firstError := firstArrived evs, writeClosed := true, httpClosed := true }, rest)
      ∧ arrivedErrors rest = []) ∧
    (∀ evs', Interleaving evs' → arrivedErrors evs' = arrivedErrors evs →
      ∃ rest', coordinatorLoop CoordState.init evs' =
        some ({ firstError := firstArrived evs, writeClosed := true, httpClosed := true },
          rest')) := by
  have key : ∀ l, Interleaving l → ∃ rest, coordinatorLoop CoordState.init l =
        some ({ firstError := firstArrived l, writeClosed := true, httpClosed := true }, rest)
      ∧ arrivedErrors rest = [] := by
    intro l hl
    have := coordinatorLoop_first_error_aux l CoordState.init (by simp [CoordState.init])
      (by simpa [sideOk, CoordState.init] using valuesThenClosed_of_chanProtocol _ hl.1)
      (by simpa [sideOk, CoordState.init] using valuesThenClosed_of_chanProtocol _ hl.2)
    simpa [keepFirst, CoordState.init] using this
  refine ⟨key evs h, ?_⟩
  intro evs' h' harr
  obtain ⟨r, h1, _⟩ := key evs' h'
  exact ⟨r, by simpa [firstArrived, harr] using h1⟩

/-- Witness for C1: the encoder's error arrives first, the transmitter's second, and
the transmitter's channel is seen closed before the encoder's. -/
theorem coordinator_returns_first_error_witness :
    Interleaving [.writeErrors (.value (some "read")), .httpErrors (.value (some "net")),
         .httpErrors .closed, .writeErrors .closed] ∧
    (∃ rest, coordinatorLoop CoordState.init
        [.writeErrors (.value (some "read")), .httpErrors (.value (some "net")),
         .httpErrors .closed, .writeErrors .closed] =
        some ({ firstError := some "read", writeClosed := true, httpClosed := true }, rest)
      ∧ arrivedErrors rest = []) :=
  ⟨by decide, (coordinator_returns_first_error
    [.writeErrors (.value (some "read")), .httpErrors (.value (some "net")),
     .httpErrors .closed, .writeErrors .closed] (by decide)).1⟩

/-! ## Coordinator: the loop ends exactly when both closures have been observed -/

theorem selectCase_writeClosed (s : CoordState) (ev : Event) :
    (selectCase s ev).writeClosed = (s.writeClosed || (Event.writeErrors .closed == ev)) := by
  rcases ev with (e | _) | (e | _) <;> simp [selectCase] <;> split <;> simp

theorem selectCase_httpClosed (s : CoordState) (ev : Event) :
    (selectCase s ev).httpClosed = (s.httpClosed || (Event.httpErrors .closed == ev)) := by
  rcases ev with (e | _) | (e | _) <;> simp [selectCase] <;> split <;> simp

theorem coordinatorLoop_isSome (evs : List Event) :
    ∀ s : CoordState, (s.writeClosed && s.httpClosed) = false →
      (coordinatorLoop s evs).isSome =
        ((s.writeClosed || writeClosureSeen evs) && (s.httpClosed || httpClosureSeen evs)) := by
  induction evs with
  | nil => intro s hs; simpa [coordinatorLoop, writeClosureSeen, httpClosureSeen] using hs.symm
  | cons ev rest ih =>
    intro s hs
    by_cases hb : ((selectCase s ev).writeClosed && (selectCase s ev).httpClosed) = true
    · have hb' := hb
      rw [selectCase_writeClosed, selectCase_httpClosed] at hb'
      simp only [coordinatorLoop, hb, if_true, Option.isSome_some]
      simp only [Bool.and_eq_true, Bool.or_eq_true] at hb'
      simp only [writeClosureSeen, httpClosureSeen, List.contains_cons]
      rcases hb' with ⟨h1 | h1, h2 | h2⟩ <;>
        first
          | (rw [beq_iff_eq] at h1; subst h1; simp_all)
          | (rw [beq_iff_eq] at h2; subst h2; simp_all)
          | simp_all
    · have hb' : ((selectCase s ev).writeClosed && (selectCase s ev).httpClosed) = false := by
        simpa using hb
      simp only [coordinatorLoop, hb', Bool.false_eq_true, if_false]
      rw [ih _ hb', selectCase_writeClosed, selectCase_httpClosed]
      simp only [writeClosureSeen, httpClosureSeen, List.contains_cons]
      cases s.writeClosed <;> cases s.httpClosed <;>
        rcases ev with (e | _) | (e | _) <;> simp

theorem coordinatorLoop_split (evs : List Event) :
    ∀ (s s' : CoordState) (rest : List Event), coordinatorLoop s evs = some (s', rest) →
      s'.writeClosed = true ∧ s'.httpClosed = true ∧
      ∃ pre ev, evs = pre ++ ev :: rest ∧ coordinatorLoop s pre = none ∧
        coordinatorLoop s (pre ++ [ev]) = some (s', []) := by
  induction evs with
  | nil => intro s s' rest h; simp [coordinatorLoop] at h
  | cons ev tl ih =>
    intro s s' rest h
    by_cases hb : ((selectCase s ev).writeClosed && (selectCase s ev).httpClosed) = true
    · simp only [coordinatorLoop, hb, if_true, Option.some.injEq, Prod.mk.injEq] at h
      obtain ⟨rfl, rfl⟩ := h
      simp only [Bool.and_eq_true] at hb
      exact ⟨hb.1, hb.2, [], ev, rfl, rfl, by simp [coordinatorLoop, hb.1, hb.2]⟩
    · simp only [coordinatorLoop, hb, if_false] at h
      obtain ⟨h1, h2, pre, e, rfl, h3, h4⟩ := ih _ _ _ h
      refine ⟨h1, h2, ev :: pre, e, rfl, ?_, ?_⟩
      · cases pre <;> simp_all [coordinatorLoop]
      · simpa [coordinatorLoop, hb] using h4

theorem coordinatorLoop_append (p q : List Event) :
    ∀ (s s' : CoordState) (r : List Event), coordinatorLoop s p = some (s', r) →
      coordinatorLoop s (p ++ q) = some (s', r ++ q) := by
  induction p with
  | nil => intro s s' r h; simp [coordinatorLoop] at h
  | cons ev tl ih =>
    intro s s' r h
    by_cases hb : ((selectCase s ev).writeClosed && (selectCase s ev).httpClosed) = true
    · simp only [coordinatorLoop, hb, if_true, Option.some.injEq, Prod.mk.injEq] at h
      obtain ⟨rfl, rfl⟩ := h
      simp [coordinatorLoop, hb]
    · simp only [coordinatorLoop, hb, if_false] at h
      simpa [coordinatorLoop, hb] using ih _ _ _ h

theorem coordinatorLoop_init_isSome (evs : List Event) :
    (coordinatorLoop CoordState.init evs).isSome = bothClosuresSeen evs := by
  simpa [CoordState.init, bothClosuresSeen] using
    coordinatorLoop_isSome evs CoordState.init (by simp [CoordState.init])

/-- C2: the coordinator loop, as a state machine over (writeClosed, httpClosed),
returns exactly when closure has been observed on both channels.  For every
sequence of select outcomes: (1) it returns on the sequence iff both closures occur
in it, so it does not return on any prefix in which a closure is still missing;
(2) when it returns, both flags are set and the last event it consumed is the first
one after which both closures had been observed; (3) there is exactly one prefix
length at which the loop returns having consumed that whole prefix, whichever
channel closes first. -/
theorem coordinator_terminal_iff_both_closed (evs : List Event) :
    ((coordinatorLoop CoordState.init evs).isSome = bothClosuresSeen evs) ∧
    (∀ s rest, coordinatorLoop CoordState.init evs = some (s, rest) →
      s.writeClosed = true ∧ s.httpClosed = true ∧
      ∃ pre ev, evs = pre ++ ev :: rest ∧ bothClosuresSeen pre = false ∧
        bothClosuresSeen (pre ++ [ev]) = true) ∧
    (bothClosuresSeen evs = true →
      ∃! n, n ≤ evs.length ∧
        ∃ s, coordinatorLoop CoordState.init (evs.take n) = some (s, [])) := by
  refine ⟨coordinatorLoop_init_isSome evs, ?_, ?_⟩
  · intro s rest h
    obtain ⟨h1, h2, pre, ev, rfl, h3, h4⟩ := coordinatorLoop_split evs _ _ _ h
    refine ⟨h1, h2, pre, ev, rfl, ?_, ?_⟩
    · rw [← coordinatorLoop_init_isSome, h3]; rfl
    · rw [← coordinatorLoop_init_isSome, h4]; rfl
  · intro hb
    rw [← coordinatorLoop_init_isSome, Option.isSome_iff_exists] at hb
    obtain ⟨⟨s, rest⟩, h⟩ := hb
    obtain ⟨_, _, pre, ev, rfl, _, h4⟩ := coordinatorLoop_split evs _ _ _ h
    refine ⟨(pre ++ [ev]).length, ⟨by simp, s, ?_⟩, ?_⟩
    · have : pre ++ ev :: rest = (pre ++ [ev]) ++ rest := by simp
      rw [this, List.take_left]
      exact h4
    · rintro n ⟨hn, s2, h5⟩
      have h6 := coordinatorLoop_append _ ((pre ++ ev :: rest).drop n) _ _ _ h5
      rw [List.take_append_drop, h] at h6
      simp only [List.nil_append, Option.some.injEq, Prod.mk.injEq] at h6
      have h7 := congrArg List.length h6.2
      simp only [List.length_drop, List.length_append, List.length_cons, List.length_nil] at h7 hn ⊢
      omega

/-- Witness for C2: the transmitter's channel closes first, closure of it is observed
twice, and the loop returns at the fourth outcome, the encoder's closure. -/
theorem coordinator_terminal_iff_both_closed_witness :
    bothClosuresSeen [.httpErrors .closed, .writeErrors (.value (some "read")),
        .httpErrors .closed, .writeErrors .closed] = true ∧
    ∃! n, n ≤ 4 ∧ ∃ s, coordinatorLoop CoordState.init
      (([.httpErrors .closed, .writeErrors (.value (some "read")),
        .httpErrors .closed, .writeErrors .closed] : List Event).take n) = some (s, []) :=
  ⟨by decide, (coordinator_terminal_iff_both_closed
    [.httpErrors .closed, .writeErrors (.value (some "read")),
      .httpErrors .closed, .writeErrors .closed]).2.2 (by decide)⟩

/-! ## Buildpack JSON -/

theorem keyMatches_facts :
    keyMatches "metadata" "enabled" = false ∧ keyMatches "metadata" "guid" = false ∧
    keyMatches "metadata" "name" = false ∧ keyMatches "metadata" "position" = false ∧
    keyMatches "entity" "enabled" = false ∧ keyMatches "entity" "guid" = false ∧
    keyMatches "entity" "name" = false ∧ keyMatches "entity" "position" = false := by
  decide

theorem unmarshal_marshal (b : Buildpack) :
    Buildpack.UnmarshalJSON (marshalBuildpack b) = .ok Buildpack.zero := by
  obtain ⟨h1, h2, h3, h4, h5, h6, h7, h8⟩ := keyMatches_facts
  rcases b with ⟨en, guid, name, pos⟩
  by_cases hg : guid = "" <;> by_cases hp : pos = 0 <;> cases en <;>
    simp [Buildpack.UnmarshalJSON, unmarshalAlias, marshalBuildpack, decodeAlias, hg, hp,
      h1, h2, h3, h4, h5, h6, h7, h8, Alias.zero, Buildpack.zero]

theorem unmarshal_envelope (b : Buildpack) (h : inIntRange b.Position = true) :
    Buildpack.UnmarshalJSON (envelope b) = .ok b := by
  have k1 : keyMatches "metadata" "metadata" = true := by decide
  have k2 : keyMatches "metadata" "entity" = false := by decide
  have k3 : keyMatches "entity" "entity" = true := by decide
  have k4 : keyMatches "guid" "guid" = true := by decide
  have k5 : keyMatches "name" "name" = true := by decide
  have k6 : keyMatches "name" "position" = false := by decide
  have k7 : keyMatches "position" "position" = true := by decide
  have k8 : keyMatches "name" "enabled" = false := by decide
  have k9 : keyMatches "position" "enabled" = false := by decide
  have k10 : keyMatches "enabled" "enabled" = true := by decide
  rcases b with ⟨en, guid, name, pos⟩
  simp only at h
  simp [Buildpack.UnmarshalJSON, unmarshalAlias, envelope, decodeAlias, decodeMetadata,
    decodeEntity, decodeString, decodeInt, decodeBool, Alias.zero, h,
    k1, k2, k3, k4, k5, k6, k7, k8, k9, k10]

/-- C5, counterexample: the buildpack of the creation test (Name "potato", Position
1, Enabled true) is not preserved by marshalling it and decoding the result with
`UnmarshalJSON`. -/
theorem roundtrip_counterexample :
    ¬ ∃ b', Buildpack.UnmarshalJSON
        (marshalBuildpack { Enabled := true, GUID := "", Name := "potato", Position := 1 })
          = .ok b' ∧
        b'.GUID = "" ∧ b'.Name = "potato" ∧ b'.Position = 1 ∧ b'.Enabled = true := by
  rintro ⟨b', h, _, hn, _, _⟩
  rw [unmarshal_marshal] at h
  injection h with h
  subst h
  simp [Buildpack.zero] at hn

/-- C5, amended: for every Buildpack b, decoding what `json.Marshal` produces for b
with `UnmarshalJSON` succeeds and yields the zero Buildpack, because the flat object
has no "metadata" or "entity" member; GUID, Name, Position and Enabled of b are
recovered when the same values are carried by the nested metadata/entity envelope. -/
theorem roundtrip_through_envelope (b : Buildpack) :
    Buildpack.UnmarshalJSON (marshalBuildpack b) = .ok Buildpack.zero ∧
    (inIntRange b.Position = true → Buildpack.UnmarshalJSON (envelope b) = .ok b) :=
  ⟨unmarshal_marshal b, unmarshal_envelope b⟩

/-- Witness for C5: the created buildpack of the test. -/
theorem roundtrip_through_envelope_witness :
    inIntRange 1 = true ∧
    Buildpack.UnmarshalJSON
      (envelope { Enabled := true, GUID := "some-guid", Name := "potato", Position := 1 })
        = .ok { Enabled := true, GUID := "some-guid", Name := "potato", Position := 1 } :=
  ⟨by decide, (roundtrip_through_envelope
    { Enabled := true, GUID := "some-guid", Name := "potato", Position := 1 }).2 (by decide)⟩

/-- C9, counterexample: a disabled buildpack without a position and with an empty
GUID is sent as an object whose only member is "name". -/
theorem create_body_counterexample :
    (createBuildpackBody { Enabled := false, GUID := "", Name := "potato", Position := 0 }).memberNames
      = ["name"] := by
  decide

/-- C9, amended: for every Buildpack with an empty GUID the body `CreateBuildpack`
sends is the JSON object that always has the member "name" (the Name), has
"enabled" (true) exactly when Enabled is true and "position" (the Position) exactly
when Position is not 0, and has no other member; so it has exactly the members
"enabled", "name" and "position" when Enabled is true and Position is not 0. -/
theorem create_body_members (b : Buildpack) (hg : b.GUID = "") :
    createBuildpackBody b =
      .obj ((if b.Enabled = true then [("enabled", .bool true)] else [])
        ++ [("name", .str b.Name)]
        ++ (if b.Position = 0 then [] else [("position", .num (.int b.Position))])) ∧
    (b.Enabled = true → b.Position ≠ 0 →
      createBuildpackBody b =
        .obj [("enabled", .bool true), ("name", .str b.Name),
              ("position", .num (.int b.Position))]) := by
  rcases b with ⟨en, guid, name, pos⟩
  simp only at hg
  subst hg
  constructor
  · cases en <;> simp [createBuildpackBody, marshalBuildpack]
  · intro he hp
    simp only at he hp
    subst he
    simp [createBuildpackBody, marshalBuildpack, hp]

/-- Witness for C9: the buildpack of the creation test. -/
theorem create_body_members_witness :
    createBuildpackBody { Enabled := true, GUID := "", Name := "potato", Position := 1 } =
      .obj [("enabled", .bool true), ("name", .str "potato"), ("position", .num (.int 1))] :=
  (create_body_members { Enabled := true, GUID := "", Name := "potato", Position := 1 } rfl).2
    rfl (by decide)

/-! ## `filepath.Base` -/

theorem dropWhile_replicate_sep (k : Nat) (l : List Char) :
    (List.replicate k '/' ++ l).dropWhile isPathSeparator = l.dropWhile isPathSeparator := by
  induction k with
  | zero => rfl
  | succ k ih => simp [List.replicate_succ, List.dropWhile_cons, isPathSeparator, ih]

theorem takeWhile_until_sep (m rest : List Char) (hm : ∀ c ∈ m, isPathSeparator c = false) :
    (m ++ '/' :: rest).takeWhile (fun c => !isPathSeparator c) = m := by
  induction m with
  | nil => simp [List.takeWhile_cons, isPathSeparator]
  | cons a m ih =>
    have ha : isPathSeparator a = false := hm a (List.mem_cons_self _ _)
    have := ih (fun c hc => hm c (List.mem_cons_of_mem _ hc))
    simp [List.takeWhile_cons, ha, this]

theorem takeWhile_no_sep (m : List Char) (hm : ∀ c ∈ m, isPathSeparator c = false) :
    m.takeWhile (fun c => !isPathSeparator c) = m := by
  induction m with
  | nil => rfl
  | cons a m ih =>
    have ha : isPathSeparator a = false := hm a (List.mem_cons_self _ _)
    have := ih (fun c hc => hm c (List.mem_cons_of_mem _ hc))
    simp [List.takeWhile_cons, ha, this]

theorem lastElement_of_segments (dir name : List Char) (k : Nat) (hne : name ≠ [])
    (hname : ∀ c ∈ name, isPathSeparator c = false) :
    lastElement (stripTrailingSeparators (dir ++ '/' :: name ++ List.replicate k '/')) = name ∧
    lastElement (stripTrailingSeparators (name ++ List.replicate k '/')) = name := by
  have hrev : ∀ c ∈ name.reverse, isPathSeparator c = false := fun c hc =>
    hname c (by simpa using hc)
  have hd : ∀ t : List Char, (name.reverse ++ t).dropWhile isPathSeparator = name.reverse ++ t := by
    intro t
    cases hr : name.reverse with
    | nil => simp at hr; exact absurd hr hne
    | cons a u =>
      have ha : isPathSeparator a = false := hrev a (by rw [hr]; exact List.mem_cons_self _ _)
      simp [List.dropWhile_cons, ha]
  constructor
  · have h1 : stripTrailingSeparators (dir ++ '/' :: name ++ List.replicate k '/')
        = dir ++ '/' :: name := by
      unfold stripTrailingSeparators
      have : (dir ++ '/' :: name ++ List.replicate k '/').reverse
          = List.replicate k '/' ++ (name.reverse ++ '/' :: dir.reverse) := by
        simp [List.reverse_append]
      rw [this, dropWhile_replicate_sep, hd]
      simp [List.reverse_append]
    rw [h1]
    unfold lastElement
    have : (dir ++ '/' :: name).reverse = name.reverse ++ '/' :: dir.reverse := by
      simp [List.reverse_append]
    rw [this, takeWhile_until_sep _ _ hrev]
    simp
  · have h1 : stripTrailingSeparators (name ++ List.replicate k '/') = name := by
      unfold stripTrailingSeparators
      have : (name ++ List.replicate k '/').reverse
          = List.replicate k '/' ++ (name.reverse ++ []) := by
        simp [List.reverse_append]
      rw [this, dropWhile_replicate_sep, hd]
      simp
    rw [h1]
    unfold lastElement
    rw [takeWhile_no_sep _ hrev]
    simp

theorem Base_of_segments (dir name : String) (k : Nat) (hne : name ≠ "")
    (hname : '/' ∉ name.toList) :
    Base (dir ++ "/" ++ name ++ String.mk (List.replicate k '/')) = name ∧
    Base (name ++ String.mk (List.replicate k '/')) = name := by
  have hne' : name.toList ≠ [] := by
    intro h
    apply hne
    cases name
    simp_all
  have hsep : ∀ c ∈ name.toList, isPathSeparator c = false := by
    intro c hc
    simp only [isPathSeparator, beq_eq_false_iff_ne, ne_eq]
    rintro rfl
    exact hname hc
  obtain ⟨h1, h2⟩ := lastElement_of_segments dir.toList name.toList k hne' hsep
  have e1 : (dir ++ "/" ++ name ++ String.mk (List.replicate k '/')).toList
      = dir.toList ++ '/' :: name.toList ++ List.replicate k '/' := by
    simp [String.toList]
  have e2 : (name ++ String.mk (List.replicate k '/')).toList
      = name.toList ++ List.replicate k '/' := by
    simp [String.toList]
  have hd : name.data ≠ [] := hne'
  constructor
  · unfold Base
    rw [e1, h1]
    simp [String.toList, hd]
  · unfold Base
    rw [e2, h2]
    simp [String.toList, hd]

/-- C4, counterexample: on a Unix `GOOS` a path written with backslashes has no
separator in it, and the whole path becomes the file name of the part. -/
theorem form_file_name_counterexample :
    formFile? (encoderTask "a\\b\\pkg.zip"
        { createErr := none, copied := ["abc"], copyErr := none, closeErr := none })
      = some ("buildpack", "a\\b\\pkg.zip") := by
  decide

/-- C4, amended: the file name given to the form-file part named "buildpack" is
`filepath.Base` of the path, which on a Unix `GOOS` separates at slashes only: for
every directory prefix (any number of components, of any characters) followed by a
slash and a non-empty final segment without a slash, and any number of trailing
slashes, and also for the bare final segment, the file name is that final segment
(so "/a/b/c/pkg.zip" gives "pkg.zip"); a backslash is an ordinary character of a
segment. -/
theorem form_file_name_is_last_segment (dir name : String) (k : Nat) (r : EncoderRun)
    (hne : name ≠ "") (hname : '/' ∉ name.toList) :
    formFile? (encoderTask (dir ++ "/" ++ name ++ String.mk (List.replicate k '/')) r)
      = some ("buildpack", name) ∧
    formFile? (encoderTask (name ++ String.mk (List.replicate k '/')) r)
      = some ("buildpack", name) := by
  obtain ⟨h1, h2⟩ := Base_of_segments dir name k hne hname
  simp [encoderTask, encoderBody, formFile?, h1, h2]

/-- Witness for C4: the path of the specification's example. -/
theorem form_file_name_is_last_segment_witness :
    ("pkg.zip" ≠ "" ∧ '/' ∉ "pkg.zip".toList) ∧
    formFile? (encoderTask ("/a/b/c" ++ "/" ++ "pkg.zip" ++ String.mk (List.replicate 0 '/'))
        { createErr := none, copied := ["abc"], copyErr := none, closeErr := none })
      = some ("buildpack", "pkg.zip") :=
  ⟨by decide, (form_file_name_is_last_segment "/a/b/c" "pkg.zip" 0
    { createErr := none, copied := ["abc"], copyErr := none, closeErr := none }
    (by decide) (by decide)).1⟩

/-! ## The goroutines' completion signalling -/

/-- C7: on every exit path of the encoder goroutine (form-file creation fails,
copying fails, writing the closing boundary fails, or success) the last two things
it does are `writerInput.Close()` and then `close(writeErrors)`: the write side of
the pipe is closed, once, and before the error channel is closed. -/
theorem encoder_closes_pipe_before_channel (bpPath : String) (r : EncoderRun) :
    ∃ pre, encoderTask bpPath r = pre ++ [.closePipe, .close .writeErrors] ∧
      Act.closePipe ∉ pre ∧ Act.close .writeErrors ∉ pre := by
  refine ⟨encoderBody bpPath r, by simp [encoderTask, deferred], ?_, ?_⟩ <;>
    rcases r with ⟨e1, cs, e2, e3⟩ <;> cases e1 <;> cases e2 <;> cases e3 <;>
      simp [encoderBody]

/-- C10: on every execution path the encoder sends at most one value on
`writeErrors` and the transmitter at most one on `httpErrors`, a sent value is
never nil, nothing is sent when the task's calls all succeed, neither task sends
on the other's channel, and each task closes its own channel exactly once, as the
last thing it does, hence after any send. -/
theorem tasks_signal_completion (bpPath : String) (r : EncoderRun) (w : Warnings)
    (makeErr : GoError) :
    ((sentOn .writeErrors (encoderTask bpPath r)).length ≤ 1 ∧
      none ∉ sentOn .writeErrors (encoderTask bpPath r) ∧
      (r.createErr = none → r.copyErr = none → r.closeErr = none →
        sentOn .writeErrors (encoderTask bpPath r) = []) ∧
      sentOn .httpErrors (encoderTask bpPath r) = [] ∧
      ∃ pre, encoderTask bpPath r = pre ++ [.close .writeErrors] ∧
        Act.close .writeErrors ∉ pre ∧ Act.close .httpErrors ∉ pre) ∧
    ((sentOn .httpErrors (transmitterTask w makeErr)).length ≤ 1 ∧
      none ∉ sentOn .httpErrors (transmitterTask w makeErr) ∧
      (makeErr = none → sentOn .httpErrors (transmitterTask w makeErr) = []) ∧
      sentOn .writeErrors (transmitterTask w makeErr) = [] ∧
      ∃ pre, transmitterTask w makeErr = pre ++ [.close .httpErrors] ∧
        Act.close .httpErrors ∉ pre ∧ Act.close .writeErrors ∉ pre) := by
  constructor
  · refine ⟨?_, ?_, ?_, ?_, encoderBody bpPath r ++ [.closePipe], ?_, ?_, ?_⟩ <;>
      rcases r with ⟨e1, cs, e2, e3⟩ <;> cases e1 <;> cases e2 <;> cases e3 <;>
        simp [encoderTask, encoderBody, deferred, sentOn]
  · refine ⟨?_, ?_, ?_, ?_, (.make w makeErr ::
        (if makeErr ≠ none then [.send .httpErrors makeErr] else [])), ?_, ?_, ?_⟩ <;>
      cases makeErr <;> simp [transmitterTask, deferred, sentOn]

/-! ## The whole upload -/

theorem run_append (env : Env) (a b : List Step) :
    ∀ s, run env (a ++ b) s = (run env a s).bind (run env b) := by
  induction a with
  | nil => intro s; rfl
  | cons l a ih =>
    intro s
    cases h : step env l s with
    | none => simp [run, h]
    | some s' => simp [run, h, ih]

theorem run_invariant (env : Env) (P : Upload → Prop)
    (hstep : ∀ l s s', P s → step env l s = some s' → P s') :
    ∀ sched s s', P s → run env sched s = some s' → P s' := by
  intro sched
  induction sched with
  | nil => intro s s' hp h; simp only [run, Option.some.injEq] at h; exact h ▸ hp
  | cons l rest ih =>
    intro s s' hp h
    cases hs : step env l s with
    | none => simp [run, hs] at h
    | some s1 =>
      simp only [run, hs] at h
      exact ih s1 s' (hstep l s s1 hp hs) h

/-- While `buf.ReadFrom` runs, the chunks `io.Copy` has still to write are taken
from the pipe one read at a time. -/
theorem drain_copy (env : Env) (err : GoError) (rest : List Act) (cs : List String) :
    ∀ s : Upload, s.main = .draining → s.encoder = .copy cs err :: rest →
      run env (List.replicate cs.length .main) s =
        some { s with buf := s.buf ++ cs.map .content, encoder := .copy [] err :: rest } := by
  induction cs with
  | nil =>
    intro s _ he
    rcases s with ⟨m, enc, tx, pc, wc, hc, buf, sent, resp⟩
    simp only at he
    simp [run, he]
  | cons c cs ih =>
    intro s hm he
    rcases s with ⟨m, enc, tx, pc, wc, hc, buf, sent, resp⟩
    simp only at hm he
    subst hm he
    simp only [List.length_cons, List.replicate_succ, run, step, pipeRead, pendingWrite]
    rw [ih _ rfl rfl]
    simp

/-! ### A failing source leaves `UploadBuildpack` stuck in `buf.ReadFrom` -/

theorem pendingWrite_blockedBySend (enc enc' : List Act) (p : Part)
    (h : pendingWrite enc = some (p, enc')) (hb : blockedBySend enc = true) :
    blockedBySend enc' = true := by
  match enc, h with
  | .createFormFile f n none :: rest, h =>
    simp only [pendingWrite, Option.some.injEq, Prod.mk.injEq] at h
    simpa [blockedBySend, ← h.2] using hb
  | .copy (c :: cs) err :: rest, h =>
    simp only [pendingWrite, Option.some.injEq, Prod.mk.injEq] at h
    simpa [blockedBySend, ← h.2] using hb
  | .formClose none :: rest, h =>
    simp only [pendingWrite, Option.some.injEq, Prod.mk.injEq] at h
    simpa [blockedBySend, ← h.2] using hb

theorem hangInv_step (env : Env) (l : Step) (s s' : Upload) (hi : HangInv s)
    (h : step env l s = some s') : HangInv s' := by
  rcases s with ⟨m, enc, tx, pc, wc, hc, buf, sent, resp⟩
  obtain ⟨hm, hp, ht, hb⟩ := hi
  simp only at hm hp ht hb
  subst hm hp ht
  cases l with
  | main =>
    simp only [step, pipeRead] at h
    cases hw : pendingWrite enc with
    | none => simp [hw] at h
    | some pe =>
      obtain ⟨p, enc'⟩ := pe
      simp only [hw, Option.some.injEq] at h
      subst h
      exact ⟨rfl, rfl, rfl, pendingWrite_blockedBySend enc enc' p hw hb⟩
  | selectWrite => simp [step] at h
  | selectHttp => simp [step] at h
  | encoder =>
    simp only [step] at h
    split at h <;>
      first
        | (simp only [Option.some.injEq] at h; subst h
           exact ⟨rfl, rfl, rfl, by simp [blockedBySend] at hb; exact hb⟩)
        | (simp [blockedBySend] at hb)
        | (simp at h)
  | bodyRead => simp [step] at h
  | transmitter => simp [step] at h


/-- C8, the code at the failing input: when `form.CreateFormFile` succeeds and
`io.Copy` fails (the source fails after any number of chunks), `UploadBuildpack`
has not returned after any schedule, and the schedule that lets `buf.ReadFrom`
take the part header and every chunk ends in a state where no goroutine can move:
the encoder waits in `writeErrors <- err` for the coordinator, which has not been
started, and `buf.ReadFrom` waits for the pipe, which the encoder has not closed. -/
theorem upload_hangs_when_source_fails (env : Env)
    (hc : env.encoderRun.createErr = none) (he : env.encoderRun.copyErr ≠ none) :
    (∀ sched s, run env sched (Upload.init env) = some s → s.hasReturned = false) ∧
    (∃ s, run env (.main :: List.replicate env.encoderRun.copied.length .main ++ [.encoder])
        (Upload.init env) = some s ∧ deadlocked env s = true) := by
  rcases env with ⟨path, ⟨e1, cs, e2, e3⟩, re, mw, me⟩
  simp only at hc he
  subst hc
  obtain ⟨e, rfl⟩ := Option.ne_none_iff_exists'.mp he
  constructor
  · intro sched s h
    have hinit : HangInv (Upload.init ⟨path, ⟨none, cs, some e, e3⟩, re, mw, me⟩) := by
      simp [HangInv, Upload.init, encoderTask, encoderBody, deferred, blockedBySend]
    have := run_invariant _ HangInv (hangInv_step _) sched _ s hinit h
    simp [Upload.hasReturned, this.1]
  · simp only [List.cons_append, run, step, Upload.init, encoderTask, encoderBody, deferred,
      pipeRead, pendingWrite, ne_eq, not_true_eq_false, if_false, reduceCtorEq, not_false_eq_true,
      if_true, List.reverse_cons, List.reverse_nil, List.nil_append, List.cons_append,
      List.append_eq]
    rw [run_append, drain_copy _ _ _ _ _ rfl rfl]
    simp [run, step, deadlocked, enabled, pipeRead, pendingWrite, Upload.hasReturned]

/-- Witness for C8: the source fails after the three bytes "abc". -/
theorem upload_hangs_when_source_fails_witness :
    (run uploadSourceFails [.main, .main, .encoder] (Upload.init uploadSourceFails)).map
        (fun s => (s.main, deadlocked uploadSourceFails s)) = some (.draining, true) ∧
    (∀ sched s, run uploadSourceFails sched (Upload.init uploadSourceFails) = some s →
      s.hasReturned = false) :=
  ⟨by decide, (upload_hangs_when_source_fails uploadSourceFails rfl (by decide)).1⟩

/-! ### The request body has been read to its end before the request exists -/

theorem pendingWrite_writtenParts (enc enc' : List Act) (p : Part)
    (h : pendingWrite enc = some (p, enc')) :
    writtenParts enc = p :: writtenParts enc' ∧ quietAfterClose enc' = quietAfterClose enc := by
  match enc, h with
  | .createFormFile f n none :: rest, h =>
    simp only [pendingWrite, Option.some.injEq, Prod.mk.injEq] at h
    simp [writtenParts, quietAfterClose, ← h.1, ← h.2]
  | .copy (c :: cs) err :: rest, h =>
    simp only [pendingWrite, Option.some.injEq, Prod.mk.injEq] at h
    simp [writtenParts, quietAfterClose, ← h.1, ← h.2]
  | .formClose none :: rest, h =>
    simp only [pendingWrite, Option.some.injEq, Prod.mk.injEq] at h
    simp [writtenParts, quietAfterClose, ← h.1, ← h.2]

theorem pendingWrite_none_of_writtenParts (enc : List Act) (h : writtenParts enc = []) :
    pendingWrite enc = none := by
  cases hp : pendingWrite enc with
  | none => rfl
  | some pe =>
    obtain ⟨p, enc'⟩ := pe
    rw [(pendingWrite_writtenParts enc enc' p hp).1] at h
    simp at h

theorem recv_writtenParts (ch : Chan) (enc enc' : List Act) (c : Bool) (r : Recv)
    (h : recv ch enc c = some (r, enc')) :
    writtenParts enc' = writtenParts enc ∧ quietAfterClose enc' = quietAfterClose enc := by
  unfold recv at h
  split at h
  · split at h
    · simp only [Option.some.injEq, Prod.mk.injEq] at h
      simp [writtenParts, quietAfterClose, ← h.2]
    · split at h
      · simp only [Option.some.injEq, Prod.mk.injEq] at h
        simp [← h.2]
      · simp at h
  · split at h
    · simp only [Option.some.injEq, Prod.mk.injEq] at h
      simp [← h.2]
    · simp at h

theorem drainInv_init (env : Env) : DrainInv env (Upload.init env) := by
  rcases env with ⟨path, ⟨e1, cs, e2, e3⟩, re, mw, me⟩
  cases e1 <;> cases e2 <;> cases e3 <;>
    simp [DrainInv, Upload.init, encoderTask, encoderBody, deferred, quietAfterClose,
      writtenParts]

theorem drainInv_step (env : Env) (l : Step) (s s' : Upload) (hi : DrainInv env s)
    (h : step env l s = some s') : DrainInv env s' := by
  rcases s with ⟨m, enc, tx, pc, wc, hc, buf, sent, resp⟩
  obtain ⟨h1, h2, h3, h4, h5, h6⟩ := hi
  simp only at h1 h2 h3 h4 h5 h6
  cases l with
  | main =>
    cases m with
    | draining =>
      simp only [step, pipeRead] at h
      cases hw : pendingWrite enc with
      | none =>
        cases pc with
        | false => simp [hw] at h
        | true =>
          simp only [hw, if_true, Option.some.injEq] at h
          subst h
          exact ⟨h1, h2, h3, fun _ => rfl, by simp, h6⟩
      | some pe =>
        obtain ⟨p, enc'⟩ := pe
        simp only [hw, Option.some.injEq] at h
        subst h
        obtain ⟨k1, k2⟩ := pendingWrite_writtenParts enc enc' p hw
        refine ⟨h1, ?_, ?_, by simp, by simpa using h5, by rw [k2]; exact h6⟩
        · simp only [List.append_assoc, List.singleton_append]
          rw [← k1]; exact h2
        · intro hpc
          have := h3 hpc
          rw [k1] at this
          simp at this
    | building =>
      simp only [step] at h
      have hpc := h4 (by simp)
      cases hre : env.requestErr with
      | none =>
        simp only [hre, Option.some.injEq] at h
        subst h
        exact ⟨h1, h2, h3, fun _ => hpc, by simp, h6⟩
      | some e =>
        simp only [hre, Option.some.injEq] at h
        subst h
        exact ⟨h1, h2, h3, fun _ => hpc, by simp, h6⟩
    | coordinating cs => simp [step] at h
    | returned w e => simp [step] at h
  | selectWrite =>
    cases m with
    | coordinating cs =>
      simp only [step] at h
      have hpc := h4 (by simp)
      cases hr : recv .writeErrors enc wc with
      | none => simp [hr] at h
      | some re =>
        obtain ⟨r, enc'⟩ := re
        simp only [hr, Option.some.injEq] at h
        subst h
        obtain ⟨k1, k2⟩ := recv_writtenParts _ _ _ _ _ hr
        refine ⟨h1, by rw [k1]; exact h2, by rw [k1]; exact h3, fun _ => hpc, ?_,
          by rw [k2]; exact h6⟩
        intro hd
        simp only [afterSelect, uploadResult] at hd
        split at hd
        · split at hd <;> simp at hd
        · simp at hd
    | draining => simp [step] at h
    | building => simp [step] at h
    | returned w e => simp [step] at h
  | selectHttp =>
    cases m with
    | coordinating cs =>
      simp only [step] at h
      have hpc := h4 (by simp)
      cases hr : recv .httpErrors tx hc with
      | none => simp [hr] at h
      | some re =>
        obtain ⟨r, tx'⟩ := re
        simp only [hr, Option.some.injEq] at h
        subst h
        refine ⟨h1, h2, h3, fun _ => hpc, ?_, h6⟩
        intro hd
        simp only [afterSelect, uploadResult] at hd
        split at hd
        · split at hd <;> simp at hd
        · simp at hd
    | draining => simp [step] at h
    | building => simp [step] at h
    | returned w e => simp [step] at h
  | encoder =>
    simp only [step] at h
    split at h <;>
      first
        | (simp at h; done)
        | (simp only [Option.some.injEq] at h
           subst h
           simp_all [DrainInv, writtenParts, quietAfterClose])
  | bodyRead =>
    simp only [step] at h
    split at h
    · rename_i w e rest
      simp only [connectionMakeRead, pipeRead] at h
      cases hw : pendingWrite enc with
      | none =>
        simp only [hw] at h
        cases pc <;> simp at h
      | some pe =>
        exfalso
        obtain ⟨p, enc'⟩ := pe
        have hm : m ≠ .draining := by
          intro hm
          have := h5 hm
          simp_all
        have := h3 (h4 hm)
        rw [(pendingWrite_writtenParts enc enc' p hw).1] at this
        simp at this
    · simp at h
  | transmitter =>
    simp only [step] at h
    split at h <;>
      first
        | (simp at h; done)
        | (simp only [Option.some.injEq] at h
           subst h
           refine ⟨h1, h2, h3, h4, ?_, h6⟩
           intro hm
           have := h5 hm
           simp_all)

/-- C3, the code on every input: after any schedule of any upload, nothing has been
read through the request body; and once `UploadBuildpack` is past
`buf.ReadFrom(body)` (line 75), so whenever the request exists, `buf` holds
everything the encoder wrote and a read of the body observes end-of-stream.  When
the encoder's calls all succeed, what `buf` holds is the whole envelope: the part
header, the chunks of the source in order, and the closing boundary. -/
theorem upload_drains_body_before_request (env : Env) (sched : List Step) (s : Upload)
    (h : run env sched (Upload.init env) = some s) :
    s.sent = [] ∧
    (s.main ≠ .draining →
      s.buf = writtenParts (encoderTask env.bpPath env.encoderRun) ∧
      pipeRead s.encoder s.pipeClosed = .eof) ∧
    (env.encoderRun.createErr = none → env.encoderRun.copyErr = none →
      env.encoderRun.closeErr = none →
      writtenParts (encoderTask env.bpPath env.encoderRun) =
        .header "buildpack" (Base env.bpPath) ::
          (env.encoderRun.copied.map .content ++ [.closing])) := by
  obtain ⟨h1, h2, h3, h4, _, _⟩ :=
    run_invariant env (DrainInv env) (drainInv_step env) sched _ s (drainInv_init env) h
  refine ⟨h1, ?_, ?_⟩
  · intro hm
    have hw := h3 (h4 hm)
    refine ⟨by simpa [hw] using h2, ?_⟩
    simp [pipeRead, pendingWrite_none_of_writtenParts _ hw, h4 hm]
  · intro e1 e2 e3
    simp [encoderTask, encoderBody, deferred, writtenParts, e1, e2, e3]

/-- Witness for C3: the successful upload of "abc" run to its return: the whole
envelope is in `buf` and the transmitter has read nothing. -/
theorem upload_drains_body_before_request_witness :
    run uploadOk uploadOkSchedule (Upload.init uploadOk) = some uploadOkFinal ∧
    uploadOkFinal.sent = [] ∧
    uploadOkFinal.buf = [.header "buildpack" "pkg.zip", .content "abc", .closing] :=
  ⟨by decide,
   (upload_drains_body_before_request uploadOk uploadOkSchedule uploadOkFinal (by decide)).1,
   rfl⟩

/-! ### The warnings returned are those of the response -/

theorem warnInv_init (env : Env) : WarnInv env (Upload.init env) := by
  simp [WarnInv, Upload.init]

theorem recv_http_shape (env : Env) (tx tx' : List Act) (hc : Bool) (r : Recv)
    (hr : recv .httpErrors tx hc = some (r, tx'))
    (h2 : hc = true → tx = [])
    (h3 : tx = [] ∨ tx = transmitterTask env.makeWarnings env.makeErr ∨
      tx = [.send .httpErrors env.makeErr, .close .httpErrors] ∨ tx = [.close .httpErrors]) :
    (r = .closed ∧ hc = true ∧ tx' = tx) ∨
    (tx = [.send .httpErrors env.makeErr, .close .httpErrors] ∧ tx' = [.close .httpErrors] ∧
      r = .value env.makeErr ∧ hc = false) := by
  rcases h3 with h | h | h | h
  · subst h
    cases hc <;> simp [recv] at hr
    obtain ⟨rfl, rfl⟩ := hr
    simp
  · subst h
    cases hc
    · cases hme : env.makeErr <;> simp [recv, transmitterTask, deferred, hme] at hr
    · simp [transmitterTask, deferred] at h2
  · subst h
    cases hc
    · simp [recv] at hr
      obtain ⟨rfl, rfl⟩ := hr
      simp
    · simp at h2
  · subst h
    cases hc
    · simp [recv] at hr
    · simp at h2

theorem afterSelect_cases (resp : Option Warnings) (cs : CoordState) :
    (cs.writeClosed = true ∧ cs.httpClosed = true ∧
      afterSelect resp cs = .returned (resp.getD []) cs.firstError) ∨
    ((cs.writeClosed && cs.httpClosed) = false ∧ afterSelect resp cs = .coordinating cs) := by
  unfold afterSelect uploadResult
  cases hw : cs.writeClosed <;> cases hh : cs.httpClosed <;> simp
  cases cs.firstError <;> simp

theorem warnInv_step (env : Env) (l : Step) (s s' : Upload) (hi : WarnInv env s)
    (h : step env l s = some s') : WarnInv env s' := by
  rcases s with ⟨m, enc, tx, pc, wc, hc, buf, sent, resp⟩
  obtain ⟨j1, j2, j3, j4, j5, j6⟩ := hi
  simp only at j1 j2 j3 j4 j5 j6
  cases l with
  | main =>
    cases m with
    | draining =>
      obtain ⟨rfl, rfl, rfl⟩ := j6 (Or.inl rfl)
      simp only [step] at h
      split at h <;>
        first
          | (simp at h; done)
          | (simp only [Option.some.injEq] at h; subst h; simp [WarnInv])
    | building =>
      obtain ⟨rfl, rfl, rfl⟩ := j6 (Or.inr rfl)
      simp only [step] at h
      split at h <;>
        (simp only [Option.some.injEq] at h; subst h; simp [WarnInv, CoordState.init])
    | coordinating cs => simp [step] at h
    | returned w e => simp [step] at h
  | selectWrite =>
    cases m with
    | coordinating cs =>
      simp only [step] at h
      cases hr : recv .writeErrors enc wc with
      | none => simp [hr] at h
      | some re =>
        obtain ⟨r, enc'⟩ := re
        simp only [hr, Option.some.injEq] at h
        subst h
        have hh : (selectCase cs (.writeErrors r)).httpClosed = cs.httpClosed := by
          rw [selectCase_httpClosed]; cases r <;> simp
        have j4' := j4 cs rfl
        rcases afterSelect_cases resp (selectCase cs (.writeErrors r)) with ⟨_, k2, k3⟩ | ⟨_, k3⟩
        · obtain ⟨rfl, rfl⟩ := j2 (j4' (hh ▸ k2))
          simp [WarnInv, k3]
        · refine ⟨j1, j2, j3, ?_, ?_, ?_⟩ <;> simp only [k3]
          · intro cs' hcs hcl
            simp only [MainPc.coordinating.injEq] at hcs
            subst hcs
            exact j4' (hh ▸ hcl)
          · intro w e hw; simp at hw
          · intro hm; simp at hm
    | draining => simp [step] at h
    | building => simp [step] at h
    | returned w e => simp [step] at h
  | selectHttp =>
    cases m with
    | coordinating cs =>
      simp only [step] at h
      cases hr : recv .httpErrors tx hc with
      | none => simp [hr] at h
      | some re =>
        obtain ⟨r, tx'⟩ := re
        simp only [hr, Option.some.injEq] at h
        subst h
        have j4' := j4 cs rfl
        have j3' : tx = [] ∨ tx = transmitterTask env.makeWarnings env.makeErr ∨
            tx = [.send .httpErrors env.makeErr, .close .httpErrors] ∨
            tx = [.close .httpErrors] := by
          rcases j3 with h | h | ⟨_, h | h⟩ <;> simp [h]
        rcases recv_http_shape env tx tx' hc r hr (fun hh => (j2 hh).2) j3' with
          ⟨rfl, rfl, rfl⟩ | ⟨rfl, rfl, rfl, rfl⟩
        · obtain ⟨rfl, rfl⟩ := j2 rfl
          rcases afterSelect_cases (some env.makeWarnings) (selectCase cs (.httpErrors .closed))
            with ⟨_, _, k3⟩ | ⟨_, k3⟩
          · simp [WarnInv, k3]
          · simp [WarnInv, k3]
        · have hresp : resp = some env.makeWarnings := by
            rcases j3 with h | h | ⟨h, _⟩
            · simp at h
            · simp [transmitterTask, deferred] at h
            · exact h
          subst hresp
          have hh : (selectCase cs (.httpErrors (.value env.makeErr))).httpClosed = false := by
            rw [selectCase_httpClosed]
            cases hcs : cs.httpClosed
            · simp
            · simpa using j4' hcs
          rcases afterSelect_cases (some env.makeWarnings)
              (selectCase cs (.httpErrors (.value env.makeErr))) with ⟨_, k2, _⟩ | ⟨_, k3⟩
          · rw [hh] at k2; simp at k2
          · simp [WarnInv, k3, hh]
    | draining => simp [step] at h
    | building => simp [step] at h
    | returned w e => simp [step] at h
  | encoder =>
    simp only [step] at h
    split at h <;>
      first
        | (simp at h; done)
        | (simp only [Option.some.injEq] at h; subst h
           exact ⟨j1, j2, j3, j4, j5, j6⟩)
  | bodyRead =>
    simp only [step] at h
    split at h
    · split at h
      · simp only [Option.some.injEq] at h; subst h
        exact ⟨j1, j2, j3, j4, j5, j6⟩
      · simp at h
    · simp at h
  | transmitter =>
    simp only [step] at h
    split at h
    · rename_i w e rest
      simp only [Option.some.injEq] at h
      subst h
      have htx : w = env.makeWarnings ∧
          rest = (if env.makeErr ≠ none then [.send .httpErrors env.makeErr] else [])
            ++ [.close .httpErrors] := by
        rcases j3 with h | h | ⟨_, h | h⟩
        · simp at h
        · simp only [transmitterTask, deferred, List.reverse_cons, List.reverse_nil,
            List.nil_append, List.cons_append, List.cons.injEq, Act.make.injEq] at h
          exact ⟨h.1.1, h.2⟩
        · simp at h
        · simp at h
      obtain ⟨rfl, rfl⟩ := htx
      refine ⟨Or.inr rfl, ?_, ?_, j4, ?_, ?_⟩
      · intro hh; simpa using (j2 hh).2
      · cases hme : env.makeErr <;> simp
      · intro w e hm; simpa using (j5 w e hm).1
      · intro hm; simpa using (j6 hm).1
    · rename_i rest
      simp only [Option.some.injEq] at h
      subst h
      have htx : resp = some env.makeWarnings ∧ rest = [] := by
        rcases j3 with h | h | ⟨h1, h | h⟩
        · simp at h
        · simp [transmitterTask, deferred] at h
        · simp at h
        · simp only [List.cons.injEq, true_and] at h
          exact ⟨h1, h⟩
      obtain ⟨rfl, rfl⟩ := htx
      refine ⟨Or.inr rfl, fun _ => ⟨rfl, rfl⟩, Or.inl rfl, fun _ _ _ => rfl, ?_, ?_⟩
      · intro w e hm; simpa using (j5 w e hm).1
      · intro hm; simpa using (j6 hm).1
    · simp at h

theorem returningSchedule_returns (env : Env) (hq : env.requestErr = none)
    (h1 : env.encoderRun.createErr = none) (h2 : env.encoderRun.copyErr = none)
    (h3 : env.encoderRun.closeErr = none) :
    ∃ s, run env (returningSchedule env) (Upload.init env) = some s ∧
      s.main = .returned env.makeWarnings env.makeErr ∧
      s.response = some env.makeWarnings := by
  rcases env with ⟨path, ⟨e1, cs, e2, e3⟩, re, mw, me⟩
  simp only at hq h1 h2 h3
  subst hq h1 h2 h3
  simp only [returningSchedule, List.cons_append, run, step, Upload.init, encoderTask,
    encoderBody, deferred, pipeRead, pendingWrite, ne_eq, not_true_eq_false, if_false,
    List.reverse_cons, List.reverse_nil, List.nil_append, List.cons_append, List.append_eq]
  rw [run_append, drain_copy _ _ _ _ _ rfl rfl]
  cases me <;>
    simp [run, step, pipeRead, pendingWrite, recv, transmitterTask, deferred, afterSelect,
      uploadResult, selectCase, CoordState.init]

/-- C6: whenever `connection.Make` has filled in the response, the warnings
`UploadBuildpack` returns are exactly the warnings of that response, whatever error
it returns: in every execution in which `UploadBuildpack` has returned `(w, err)`
and the response holds warnings `w'`, `w = w'`, and these are the warnings the
connection produced.  Such executions exist with and without an error: when the
request can be built and the encoder's calls succeed, `UploadBuildpack` returns on
`returningSchedule` with the connection's warnings and the connection's error, nil
or not. -/
theorem upload_returns_response_warnings (env : Env) :
    (∀ sched s w err w', run env sched (Upload.init env) = some s →
      s.main = .returned w err → s.response = some w' → w = w' ∧ w' = env.makeWarnings) ∧
    (env.requestErr = none → env.encoderRun.createErr = none →
      env.encoderRun.copyErr = none → env.encoderRun.closeErr = none →
      ∃ s, run env (returningSchedule env) (Upload.init env) = some s ∧
        s.main = .returned env.makeWarnings env.makeErr ∧
        s.response = some env.makeWarnings) := by
  refine ⟨?_, returningSchedule_returns env⟩
  intro sched s w err w' h hr hw
  obtain ⟨j1, _, _, _, j5, _⟩ :=
    run_invariant env (WarnInv env) (warnInv_step env) sched _ s (warnInv_init env) h
  have hw' : w' = env.makeWarnings := by
    rcases j1 with h | h <;> simp_all
  rcases (j5 w err hr).2 with h | h
  · simp [hw] at h
  · exact ⟨by rw [h, hw'], hw'⟩

/-- Witness for C6: the upload the server answers with an error and a warning, as
in the test "when the upload returns an error": the error and the warning of the
response are both returned. -/
theorem upload_returns_response_warnings_witness :
    run uploadNotFound (returningSchedule uploadNotFound) (Upload.init uploadNotFound)
      = some uploadNotFoundFinal ∧
    (["this is a warning"] : Warnings) = ["this is a warning"] ∧
    (["this is a warning"] : Warnings) = uploadNotFound.makeWarnings :=
  ⟨by decide,
   (upload_returns_response_warnings uploadNotFound).1
     (returningSchedule uploadNotFound) uploadNotFoundFinal ["this is a warning"]
     (some "The buildpack could not be found: some-buildpack-guid") ["this is a warning"]
     (by decide) rfl rfl⟩

end Ccv2
